import Mathlib

/-!
Verification of the zenodb cluster-replication core (leader-side follower
multiplexer, map/reduce pipeline, replication metrics) against its
natural-language specification.

The development is a shallow embedding:
* Go maps become association lists (`lookupA` / `insertA` reproduce Go's
  lookup-with-zero-value and assignment semantics; Go map iteration happens in
  list order).
* WAL offsets (`wal.Offset`, an opaque totally ordered value) are embedded as
  `Nat`, with `offsetAfter a b` embedding `a.After(b)`.
* Machine integers that can go negative (the metrics counters, Go `int`)
  become `Int`.
* Code that would panic in Go (nil-map dereference, `close` of a closed
  channel) returns `Option` with `none` for the panic.
-/

namespace ZenoSpec

/-! ### Association lists modelling Go maps -/

/-- Lookup in an association list, modelling a Go map read (`m[k]`, with the
presence flag given by `Option`). -/
def lookupA {α β : Type} [DecidableEq α] (l : List (α × β)) (k : α) : Option β :=
  match l with
  | [] => none
  | (k', v) :: rest => if k' = k then some v else lookupA rest k

/-- Assignment into an association list, modelling a Go map write `m[k] = v`:
replaces the binding when the key is present, otherwise appends it. -/
def insertA {α β : Type} [DecidableEq α] (l : List (α × β)) (k : α) (v : β) : List (α × β) :=
  match l with
  | [] => [(k, v)]
  | (k', v') :: rest => if k' = k then (k, v) :: rest else (k', v') :: insertA rest k v

/-- Keys of an association list, in order. -/
def keysOf {α β : Type} (l : List (α × β)) : List α := l.map Prod.fst

/-! ### Replication metrics (embedding of the `metrics` package)

The `LeaderStats` fields `NumPartitions` and `CurrentlyReadingWAL` are carried
along for fidelity even though only `SetNumPartitions` / `CurrentlyReadingWAL`
touch them. -/

/-- FollowerStats provides stats for a single follower. -/
structure FollowerStats where
  followerId : Nat
  Partition : Nat
  Queued : Int
  Failed : Bool
deriving Repr, DecidableEq

/-- PartitionStats provides stats for a single partition. -/
structure PartitionStats where
  Partition : Nat
  NumFollowers : Int
deriving Repr, DecidableEq

/-- Process-wide metrics state: the leader counters together with the
`followerStats` and `partitionStats` tables. -/
structure MetricsState where
  numPartitions : Int
  connectedPartitions : Int
  connectedFollowers : Int
  currentlyReadingWAL : String
  followerStats : List (Nat × FollowerStats)
  partitionStats : List (Nat × PartitionStats)
deriving Repr, DecidableEq

/-- State installed by the package's `reset` (called from `init`). -/
def resetState : MetricsState :=
  { numPartitions := 0
    connectedPartitions := 0
    connectedFollowers := 0
    currentlyReadingWAL := ""
    followerStats := []
    partitionStats := [] }

/-- Embedding of `getFollowerStats`: returns the stats for the id, creating a
fresh record (and bumping `connectedFollowers`) when absent. -/
def getFollowerStats (s : MetricsState) (followerID : Nat) : MetricsState × FollowerStats :=
  match lookupA s.followerStats followerID with
  | some fs => (s, fs)
  | none =>
    let fs : FollowerStats :=
      { followerId := followerID, Partition := 0, Queued := 0, Failed := false }
    ({ s with
        connectedFollowers := s.connectedFollowers + 1
        followerStats := insertA s.followerStats followerID fs },
     fs)

/-- Embedding of `FollowerJoined(followerID, partition)`: record the follower's
partition; if the partition has no stats entry yet, create one and bump
`ConnectedPartitions`; then increment the partition's `NumFollowers`. -/
def followerJoined (s : MetricsState) (followerID partition : Nat) : MetricsState :=
  let sfs := getFollowerStats s followerID
  let fs := { sfs.2 with Partition := partition }
  let s := { sfs.1 with followerStats := insertA sfs.1.followerStats followerID fs }
  match lookupA s.partitionStats partition with
  | none =>
    { s with
        partitionStats :=
          insertA s.partitionStats partition { Partition := partition, NumFollowers := 1 }
        connectedPartitions := s.connectedPartitions + 1 }
  | some ps =>
    { s with
        partitionStats :=
          insertA s.partitionStats partition { ps with NumFollowers := ps.NumFollowers + 1 } }

/-- Embedding of `FollowerFailed(followerID)`: only the first call for a
non-failed registered follower has an effect.  The Go code dereferences
`partitionStats[fs.Partition]` without a nil check; a missing entry would be a
nil-pointer panic, embedded as `none`. -/
def followerFailed (s : MetricsState) (followerID : Nat) : Option MetricsState :=
  match lookupA s.followerStats followerID with
  | none => some s
  | some fs =>
    if fs.Failed then some s
    else
      match lookupA s.partitionStats fs.Partition with
      | none => none
      | some ps =>
        let s :=
          { s with
              connectedFollowers := s.connectedFollowers - 1
              followerStats := insertA s.followerStats followerID { fs with Failed := true } }
        let ps' : PartitionStats := { ps with NumFollowers := ps.NumFollowers - 1 }
        let s := { s with partitionStats := insertA s.partitionStats fs.Partition ps' }
        some
          (if ps'.NumFollowers = 0 then
            { s with connectedPartitions := s.connectedPartitions - 1 }
          else s)

/-- Calling `FollowerFailed` `k` times in a row. -/
def iterateFail (k : Nat) (s : MetricsState) (followerID : Nat) : Option MetricsState :=
  match k with
  | 0 => some s
  | k + 1 =>
    match followerFailed s followerID with
    | none => none
    | some s' => iterateFail k s' followerID

/-- External events driving the metrics tables. -/
inductive MetricsOp where
  | join (id partition : Nat)
  | fail (id : Nat)
deriving Repr, DecidableEq

/-- One metrics event. -/
def stepOp (s : MetricsState) : MetricsOp → Option MetricsState
  | .join id p => some (followerJoined s id p)
  | .fail id => followerFailed s id

/-- Run a sequence of metrics events (`none` as soon as one panics). -/
def runOps (s : MetricsState) (ops : List MetricsOp) : Option MetricsState :=
  ops.foldlM stepOp s

/-- Validity of a join event: the id is fresh, and the target partition either
has no stats entry or currently has a positive follower count. -/
def joinOk (s : MetricsState) (id p : Nat) : Bool :=
  (lookupA s.followerStats id).isNone &&
    (match lookupA s.partitionStats p with
     | none => true
     | some ps => decide (0 < ps.NumFollowers))

/-- Validity of a fail event: the id was previously joined. -/
def failOk (s : MetricsState) (id : Nat) : Bool :=
  (lookupA s.followerStats id).isSome

/-- Validity of an event sequence from a given state. -/
def validOps (s : MetricsState) : List MetricsOp → Bool
  | [] => true
  | MetricsOp.join id p :: rest => joinOk s id p && validOps (followerJoined s id p) rest
  | MetricsOp.fail id :: rest =>
    failOk s id &&
      (match followerFailed s id with
       | some s' => validOps s' rest
       | none => false)

/-- The claim's own precondition on a join: the id is fresh. -/
def claimJoinOk (s : MetricsState) (id : Nat) : Bool :=
  (lookupA s.followerStats id).isNone

/-- Validity of an event sequence exactly as the claim states it: every join
uses a fresh id and every fail targets a previously joined id. -/
def claimValidOps (s : MetricsState) : List MetricsOp → Bool
  | [] => true
  | MetricsOp.join id p :: rest => claimJoinOk s id && claimValidOps (followerJoined s id p) rest
  | MetricsOp.fail id :: rest =>
    failOk s id &&
      (match followerFailed s id with
       | some s' => claimValidOps s' rest
       | none => false)

/-- Number of partition-stats entries whose follower count is positive. -/
def countPositive (s : MetricsState) : Nat :=
  (s.partitionStats.filter (fun e => decide (0 < e.2.NumFollowers))).length

/-- Invariant tying `ConnectedPartitions` to the tables: the partition keys are
distinct, the counter equals the number of positively-occupied partitions, and
every follower's recorded partition has a stats entry. -/
def MetricsInv (s : MetricsState) : Prop :=
  (keysOf s.partitionStats).Nodup ∧
  s.connectedPartitions = (countPositive s : Int) ∧
  ∀ e ∈ s.followerStats, (lookupA s.partitionStats e.2.Partition).isSome = true

/-- Non-negativity of `ConnectedPartitions` on a run result (`none` = panic). -/
def cpOk : Option MetricsState → Prop
  | some s => 0 ≤ s.connectedPartitions
  | none => False

/-! ### WAL offsets and entries -/

/-- Embedding of `a.After(b)` on WAL offsets (offsets embedded as `Nat`). -/
def offsetAfter (a b : Nat) : Bool := decide (b < a)

/-- Embedding of `walEntry` (payload bytes as a list of naturals). -/
structure walEntry where
  stream : String
  data : List Nat
  offset : Nat
deriving Repr, DecidableEq

/-! ### Go's sort (`sort.Sort` / `sort.Strings` / `sort.Ints`)

`goInsertRev less x revPrefix` inserts `x` into the reversed already-processed
prefix exactly as Go's insertion sort inner loop does: `x` moves left while
`less(x, left-neighbour)` holds and stops at the first neighbour for which it
does not.  `goInsertionSort` is Go's insertion sort (the algorithm `sort.Sort`
runs on small slices; for a `Less` that is a strict weak ordering any correct
sort produces the same sorted permutations, so this also models `sort.Sort`,
`sort.Strings` and `sort.Ints` on larger inputs up to tie order). -/

/-- One inner-loop pass of Go's insertion sort, on the reversed prefix. -/
def goInsertRev {α : Type} (less : α → α → Bool) (x : α) : List α → List α
  | [] => [x]
  | y :: ys => if less x y then y :: goInsertRev less x ys else x :: y :: ys

/-- Go's insertion sort. -/
def goInsertionSort {α : Type} (less : α → α → Bool) (l : List α) : List α :=
  (l.foldl (fun accRev x => goInsertRev less x accRev) []).reverse

/-! ### Follower session (`follower.submit` / `follower.read`) -/

/-- The session's `entries` channel: a buffered queue plus a closed flag. -/
structure EntriesChan where
  buffer : List walEntry
  closed : Bool
deriving Repr, DecidableEq

/-- Go `close(ch)`: panics (`none`) when the channel is already closed. -/
def closeChan (c : EntriesChan) : Option EntriesChan :=
  if c.closed then none else some { c with closed := true }

/-- Go `ch <- e`: panics (`none`) on a closed channel, otherwise enqueues
(the send may block; blocking is invisible to this state-level model). -/
def sendChan (c : EntriesChan) (e : walEntry) : Option EntriesChan :=
  if c.closed then none else some { c with buffer := c.buffer ++ [e] }

/-- A follower session, as seen by `submit`: its failure flag and queue. -/
structure FollowerSession where
  hasFailed : Bool
  entries : EntriesChan
deriving Repr, DecidableEq

/-- Embedding of `follower.submit`: on a failed session close the queue
(Go panics if it is already closed), otherwise send the entry. -/
def submit (f : FollowerSession) (entry : walEntry) : Option FollowerSession :=
  if f.hasFailed then
    (closeChan f.entries).map (fun c => { f with entries := c })
  else
    (sendChan f.entries entry).map (fun c => { f with entries := c })

/-- Observable state of a session's `read` loop: the failure flag, the
delivery-callback invocations in order, the number of `FollowerFailed`
metric emissions, and the number of oversize-entry warnings. -/
structure ReadObs where
  hasFailed : Bool
  delivered : List (List Nat × Nat)
  failMetricEmissions : Nat
  oversizeWarnings : Nat
deriving Repr, DecidableEq

/-- One iteration of `follower.read` on a consumed entry.  `cbErr` embeds the
delivery callback, returning `true` when the callback errors. -/
def readEntry (cbErr : List Nat → Nat → Bool) (s : ReadObs) (entry : walEntry) : ReadObs :=
  if s.hasFailed then s
  else if entry.data.length > 2000000 then
    { s with oversizeWarnings := s.oversizeWarnings + 1 }
  else
    let s := { s with delivered := s.delivered ++ [(entry.data, entry.offset)] }
    if cbErr entry.data entry.offset then
      { s with hasFailed := true, failMetricEmissions := s.failMetricEmissions + 1 }
    else s

/-- The `read` loop draining a sequence of queued entries. -/
def readLoop (cbErr : List Nat → Nat → Bool) (s : ReadObs) (entries : List walEntry) : ReadObs :=
  entries.foldl (readEntry cbErr) s

/-! ### Subscription tree and pipeline results -/

/-- Embedding of `followSpec`. -/
structure followSpec where
  followerID : Nat
  offset : Nat
deriving Repr, DecidableEq

/-- Embedding of `tableSpec` (the predicate itself is not needed by the
dispatcher loop, which only reads the memoized `wherePassed` results). -/
structure tableSpec where
  whereString : String
  followers : List (Nat × List followSpec)
deriving Repr, DecidableEq

/-- Embedding of `partitionSpec`. -/
structure partitionSpec where
  keys : List String
  tables : List (String × tableSpec)
deriving Repr, DecidableEq

/-- Per-stream subscription trees (`streams` in `processFollowers`). -/
abbrev StreamsMap := List (String × List (String × partitionSpec))

/-- Embedding of `partitionResult`. -/
structure partitionResult where
  pid : Nat
  wherePassed : List (String × Bool)
deriving Repr, DecidableEq

/-- Embedding of `partitionsResult`. -/
structure partitionsResult where
  entry : walEntry
  partitions : List (String × partitionResult)
deriving Repr, DecidableEq

/-- Embedding of `partitionsResultsByOffset.Less`:
`r[j].entry.offset.After(r[i].entry.offset)`. -/
def lessByOffset (a b : partitionsResult) : Bool :=
  offsetAfter b.entry.offset a.entry.offset

/-- The reducer's `sort.Sort(buf)`. -/
def sortByOffset (buf : List partitionsResult) : List partitionsResult :=
  goInsertionSort lessByOffset buf

/-- Embedding of `reducePartitionRequests`: for each batch size `n` received
on `queued`, read exactly `n` results from `mapped`, sort them by offset and
forward them; each produced batch ends with one `drained` signal. -/
def reducePartitionRequests (qs : List Nat) (mapped : List partitionsResult) :
    List (List partitionsResult) :=
  match qs with
  | [] => []
  | n :: rest => sortByOffset (mapped.take n) :: reducePartitionRequests rest (mapped.drop n)

/-- The successive `mapped`-channel segments consumed for each batch size. -/
def batchSegments (qs : List Nat) (mapped : List partitionsResult) :
    List (List partitionsResult) :=
  match qs with
  | [] => []
  | n :: rest => mapped.take n :: batchSegments rest (mapped.drop n)

/-! ### Dispatcher: processing one pipeline result (`processFollowers`, results case) -/

/-- First spec loop: collect `spec.followerID` for every spec whose offset the
entry's offset is `After` (run only when the table's predicate passed). -/
def processSpecsInclude (offset : Nat) (specs : List followSpec) (acc : List Nat) : List Nat :=
  specs.foldl
    (fun acc spec =>
      if offsetAfter offset spec.offset then acc ++ [spec.followerID] else acc)
    acc

/-- Second spec loop: advance every spec whose offset the entry's offset is
`After` to the entry's offset. -/
def advanceSpecs (offset : Nat) (specs : List followSpec) : List followSpec :=
  specs.map (fun spec =>
    if offsetAfter offset spec.offset then { spec with offset := offset } else spec)

/-- Per-table body of the results case: look up `followers[pid]`, skip when
empty, read the memoized `wherePassed` (Go zero value `false` when missing),
collect included followers, and advance the spec offsets. -/
def processTable (offset : Nat) (pr : partitionResult) (tableName : String)
    (table : tableSpec) (acc : List Nat) : List Nat × tableSpec :=
  let specs := (lookupA table.followers pr.pid).getD []
  if specs.length = 0 then (acc, table)
  else
    let wherePassed := (lookupA pr.wherePassed tableName).getD false
    let acc1 := if wherePassed then processSpecsInclude offset specs acc else acc
    (acc1, { table with followers := insertA table.followers pr.pid (advanceSpecs offset specs) })

/-- Per-partition body: iterate the partition's tables. -/
def processPartition (offset : Nat) (pr : partitionResult) (partition : partitionSpec)
    (acc : List Nat) : List Nat × partitionSpec :=
  let folded := partition.tables.foldl
    (fun (st : List Nat × List (String × tableSpec)) te =>
      let r := processTable offset pr te.1 te.2 st.1
      (r.1, st.2 ++ [(te.1, r.2)]))
    (acc, [])
  (folded.1, { partition with tables := folded.2 })

/-- Iterate the stream's partitions; `result.partitions[partitionKeys]` missing
would be a nil-pointer panic in Go at `pr.pid`, embedded as `none`. -/
def processResultPartitions (offset : Nat) (resParts : List (String × partitionResult)) :
    List (String × partitionSpec) → List Nat → Option (List Nat × List (String × partitionSpec))
  | [], acc => some (acc, [])
  | (pk, partition) :: rest, acc =>
    match lookupA resParts pk with
    | none => none
    | some pr =>
      let r := processPartition offset pr partition acc
      match processResultPartitions offset resParts rest r.1 with
      | none => none
      | some (accR, restR) => some (accR, (pk, r.2) :: restR)

/-- The dedup-and-submit loop over the sorted `includedFollowers` list:
skip an id equal to the previous one, then skip followers marked failed.
Returns the ids actually submitted to, in order. -/
def submitLoop (failed : Nat → Bool) (lastIncluded : Int) : List Nat → List Nat
  | [] => []
  | id :: rest =>
    if (id : Int) = lastIncluded then submitLoop failed lastIncluded rest
    else
      let outRest := submitLoop failed (id : Int) rest
      if failed id then outRest else id :: outRest

/-- Full results case for one `partitionsResult`: a missing stream iterates an
empty map (no deliveries); otherwise process every partition, sort and dedup
the included list, skip failed followers, and submit the entry.  Returns the
updated trees and the delivery log `(followerID, offset)` for this entry.
`failed` embeds the follower registry's failure flags. -/
def processFollowersResult (failed : Nat → Bool) (streams : StreamsMap)
    (result : partitionsResult) : Option (StreamsMap × List (Nat × Nat)) :=
  match lookupA streams result.entry.stream with
  | none => some (streams, [])
  | some partitions =>
    match processResultPartitions result.entry.offset result.partitions partitions [] with
    | none => none
    | some (included, partitions1) =>
      let delivered :=
        if included.length > 0 then
          submitLoop failed (-1) (goInsertionSort (fun a b => decide (a < b)) included)
        else []
      some (insertA streams result.entry.stream partitions1,
        delivered.map (fun id => (id, result.entry.offset)))

/-- The dispatcher consuming a sequence of pipeline results. -/
def runDispatcher (failed : Nat → Bool) (streams : StreamsMap) :
    List partitionsResult → Option (StreamsMap × List (Nat × Nat))
  | [] => some (streams, [])
  | r :: rest =>
    match processFollowersResult failed streams r with
    | none => none
    | some (streams1, log1) =>
      match runDispatcher failed streams1 rest with
      | none => none
      | some (streams2, log2) => some (streams2, log1 ++ log2)

/-- Offsets delivered to one follower id, in delivery order. -/
def deliveredOffsetsTo (fid : Nat) (log : List (Nat × Nat)) : List Nat :=
  (log.filter (fun d => decide (d.1 = fid))).map Prod.snd

/-! ### Partition hashing (`partitionFor`) -/

/-- The external `bytemap.ByteMap`: its raw byte slice together with the
key-value view read through `GetBytes` (`GetBytes` of an absent key returns
nil, embedded as the empty byte list). -/
structure ByteMap where
  raw : List Nat
  entries : List (String × List Nat)
deriving Repr, DecidableEq

/-- Embedding of `dims.GetBytes(key)`. -/
def ByteMap.getBytes (m : ByteMap) (k : String) : List Nat :=
  (lookupA m.entries k).getD []

/-- Embedding of `partitionFor`.  A `hash.Hash32` is determined by the byte
stream digested since the last `Reset`, so the hasher state is embedded as
that byte list (`Reset` = `[]`, `Write` = append) and `Sum32` as an abstract
function `sum32` of the digested stream (murmur3-32 in the source). -/
def partitionFor (numPartitions : Nat) (sum32 : List Nat → Nat) (dims : ByteMap)
    (partitionKeys : List String) : Nat :=
  let h : List Nat := []
  let h :=
    if partitionKeys.length > 0 then
      partitionKeys.foldl
        (fun h partitionKey =>
          let b := dims.getBytes partitionKey
          if b.length > 0 then h ++ b else h)
        h
    else h ++ dims.raw
  sum32 h % numPartitions

/-- Digested byte stream as the specification words it: for non-empty `keys`,
the value bytes of each key in the given order with absent or empty keys
contributing no bytes; for empty `keys`, the entire dimension-map byte slice. -/
def specDigest (dims : ByteMap) (keys : List String) : List Nat :=
  if keys = [] then dims.raw else (keys.map (fun k => dims.getBytes k)).flatten

/-! ### `sortedPartitionKeys` and its call sites -/

/-- Result of `sort.Strings` (Go sorts the slice in place; this is the value
the caller's slice holds after the call). -/
def sortStringsGo (l : List String) : List String :=
  goInsertionSort (fun a b => decide (a < b)) l

/-- Embedding of `sortedPartitionKeys`: the second component is the value of
the caller's (in-place sorted, aliased) slice after the call. -/
def sortedPartitionKeys (partitionKeys : List String) : String × List String :=
  if partitionKeys.length = 0 then ("", partitionKeys)
  else
    let sorted := sortStringsGo partitionKeys
    (String.intercalate "|" sorted, sorted)

/-- A `common.PartitionTable` of a Follow request. -/
structure PartitionTableReq where
  Name : String
  Offset : Nat
deriving Repr, DecidableEq

/-- A `common.Partition` of a Follow request. -/
structure PartitionReq where
  Keys : List String
  Tables : List PartitionTableReq
deriving Repr, DecidableEq

/-- Effect of `keys, sortedKeys := sortedPartitionKeys(partition.Keys)` in
`onFollowerJoined`: the request's key slice is reordered in place, so the
partition's `Keys` field holds the aliased, now-sorted list afterwards. -/
def joinKeysEffect (partition : PartitionReq) : (String × List String) × PartitionReq :=
  let ks := sortedPartitionKeys partition.Keys
  (ks, { partition with Keys := ks.2 })

/-- A local table as `followLeader` sees it. -/
structure TableLocal where
  Name : String
  PartitionBy : List String
deriving Repr, DecidableEq

/-- Effect of `sortedPartitionKeys(table.PartitionBy)` in `followLeader`:
the local table's `PartitionBy` slice is reordered in place. -/
def followLeaderKeysEffect (table : TableLocal) : (String × List String) × TableLocal :=
  let ks := sortedPartitionKeys table.PartitionBy
  (ks, { table with PartitionBy := ks.2 })

/-! ### GetStats follower sorting (`sortedFollowerStats`) -/

/-- Embedding of `sortedFollowerStats.Less`, exactly as written in the source:
`if s[i].Partition < s[j].Partition { return true }; return s[i].followerId <
s[j].followerId` (note the missing equal-partition guard). -/
def lessFollowerStats (a b : FollowerStats) : Bool :=
  if a.Partition < b.Partition then true else decide (a.followerId < b.followerId)

/-- The `sort.Sort(s.Followers)` call in `GetStats` (Go runs insertion sort on
slices this small). -/
def sortFollowers (l : List FollowerStats) : List FollowerStats :=
  goInsertionSort lessFollowerStats l

/-- The Followers list `GetStats` returns: the `followerStats` table values in
Go's (unspecified) map iteration order, then sorted. -/
def getStatsFollowers (iterationOrder : List (Nat × FollowerStats)) : List FollowerStats :=
  sortFollowers (iterationOrder.map Prod.snd)

/-- Adjacent-pairs lexicographic ordering by `(Partition, followerId)`, as the
specification describes the Followers list. -/
def followersLexOrdered (l : List FollowerStats) : Prop :=
  l.Chain' (fun a b =>
    a.Partition < b.Partition ∨ (a.Partition = b.Partition ∧ a.followerId ≤ b.followerId))

/-! ### The dispatcher's tree copy (pointer-sharing model)

The copy at cluster_follow lines 172-196 rebuilds every map but assigns the
`[]*followSpec` slices unchanged, so the copy holds the very same `followSpec`
records.  Records live in a store indexed by addresses; trees hold addresses. -/

/-- Address of a `followSpec` record. -/
abbrev SpecAddr := Nat

/-- Heap of `followSpec` records shared between tree copies. -/
structure SpecStore where
  recs : List (SpecAddr × followSpec)
deriving Repr, DecidableEq

/-- `tableSpec` with its follower specs held by address. -/
structure tableSpecA where
  whereString : String
  followers : List (Nat × List SpecAddr)
deriving Repr, DecidableEq

/-- `partitionSpec` with addressed specs. -/
structure partitionSpecA where
  keys : List String
  tables : List (String × tableSpecA)
deriving Repr, DecidableEq

/-- Per-stream trees with addressed specs. -/
abbrev StreamsA := List (String × List (String × partitionSpecA))

/-- Embedding of the dispatcher's tree copy: every map is rebuilt, while the
`keys` lists and the spec slices (address lists) are shared with the original. -/
def copyStreams (streams : StreamsA) : StreamsA :=
  streams.map (fun se =>
    (se.1, se.2.map (fun pe =>
      (pe.1,
        { keys := pe.2.keys
          tables := pe.2.tables.map (fun te =>
            (te.1,
              { whereString := te.2.whereString
                followers := te.2.followers.map (fun fe => (fe.1, fe.2)) })) }))))

/-- Offset advance `spec.offset = offset` through a shared record: mutates the
store, so every tree copy holding this address observes the new offset. -/
def advanceSpecAddr (store : SpecStore) (a : SpecAddr) (offset : Nat) : SpecStore :=
  match lookupA store.recs a with
  | none => store
  | some r =>
    if offsetAfter offset r.offset then
      { recs := insertA store.recs a { r with offset := offset } }
    else store

/-- The offset a tree copy observes for a spec address it holds. -/
def observedOffset (store : SpecStore) (a : SpecAddr) : Option Nat :=
  (lookupA store.recs a).map followSpec.offset

/-- Join-time `specs = append(specs, &followSpec{...}); table.followers[pn] =
specs` on the (new) tree: appends a fresh address to that table's list. -/
def appendSpecAddr (t : tableSpecA) (pn : Nat) (a : SpecAddr) : tableSpecA :=
  { t with followers := insertA t.followers pn (((lookupA t.followers pn).getD []) ++ [a]) }

end ZenoSpec

namespace ZenoSpec

/-! ## Lemmas: association lists -/

theorem lookupA_insertA_self {α β : Type} [DecidableEq α] (l : List (α × β)) (k : α) (v : β) :
    lookupA (insertA l k v) k = some v := by
  induction l with
  | nil => simp [insertA, lookupA]
  | cons e rest ih =>
    obtain ⟨k', v'⟩ := e
    by_cases h : k' = k
    · simp [insertA, lookupA, h]
    · simp [insertA, lookupA, h, ih]

theorem lookupA_insertA_ne {α β : Type} [DecidableEq α] (l : List (α × β)) (k k' : α) (v : β)
    (h : k' ≠ k) : lookupA (insertA l k v) k' = lookupA l k' := by
  have hne : ¬k = k' := fun hh => h hh.symm
  induction l with
  | nil => simp [insertA, lookupA, hne]
  | cons e rest ih =>
    obtain ⟨k₀, v₀⟩ := e
    by_cases h0 : k₀ = k
    · subst h0
      simp [insertA, lookupA, hne]
    · simp only [insertA, if_neg h0, lookupA]
      by_cases h1 : k₀ = k'
      · simp [h1]
      · simp [h1, ih]

theorem mem_insertA {α β : Type} [DecidableEq α] {l : List (α × β)} {k : α} {v : β} {e : α × β}
    (h : e ∈ insertA l k v) : e ∈ l ∨ e = (k, v) := by
  induction l with
  | nil => simp [insertA] at h; simp [h]
  | cons e0 rest ih =>
    obtain ⟨k₀, v₀⟩ := e0
    by_cases h0 : k₀ = k
    · simp [insertA, h0] at h
      rcases h with h | h
      · right; simp [h]
      · left; simp [h]
    · simp [insertA, h0] at h
      rcases h with h | h
      · left; simp [h]
      · rcases ih h with h1 | h1
        · left; simp [h1]
        · right; exact h1

theorem lookupA_isSome_insertA {α β : Type} [DecidableEq α] (l : List (α × β)) (k k' : α) (v : β)
    (h : (lookupA l k').isSome = true) : (lookupA (insertA l k v) k').isSome = true := by
  by_cases hk : k' = k
  · subst hk; simp [lookupA_insertA_self]
  · rw [lookupA_insertA_ne l k k' v hk]; exact h

theorem lookupA_eq_none_iff {α β : Type} [DecidableEq α] (l : List (α × β)) (k : α) :
    lookupA l k = none ↔ k ∉ keysOf l := by
  induction l with
  | nil => simp [lookupA, keysOf]
  | cons e rest ih =>
    obtain ⟨k₀, v₀⟩ := e
    by_cases h0 : k₀ = k
    · simp [lookupA, h0, keysOf]
    · simp [lookupA, h0, keysOf] at ih ⊢
      constructor
      · intro h; exact ⟨fun hh => h0 hh.symm, ih.mp h⟩
      · intro h; exact ih.mpr h.2

theorem insertA_of_lookup_none {α β : Type} [DecidableEq α] (l : List (α × β)) (k : α) (v : β)
    (h : lookupA l k = none) : insertA l k v = l ++ [(k, v)] := by
  induction l with
  | nil => simp [insertA]
  | cons e rest ih =>
    obtain ⟨k₀, v₀⟩ := e
    by_cases h0 : k₀ = k
    · simp [lookupA, h0] at h
    · simp [lookupA, h0] at h
      simp [insertA, h0, ih h]

theorem keysOf_insertA_of_lookup_some {α β : Type} [DecidableEq α] (l : List (α × β)) (k : α)
    (v : β) (h : (lookupA l k).isSome = true) : keysOf (insertA l k v) = keysOf l := by
  induction l with
  | nil => simp [lookupA] at h
  | cons e rest ih =>
    obtain ⟨k₀, v₀⟩ := e
    by_cases h0 : k₀ = k
    · simp [insertA, h0, keysOf]
    · simp [lookupA, h0] at h
      simp [insertA, h0, keysOf] at ih ⊢
      exact ih h

theorem nodup_keys_insertA {α β : Type} [DecidableEq α] (l : List (α × β)) (k : α) (v : β)
    (h : (keysOf l).Nodup) : (keysOf (insertA l k v)).Nodup := by
  cases hl : lookupA l k with
  | some w =>
    rw [keysOf_insertA_of_lookup_some l k v (by simp [hl])]
    exact h
  | none =>
    rw [insertA_of_lookup_none l k v hl]
    have hk : k ∉ keysOf l := (lookupA_eq_none_iff l k).mp hl
    simp [keysOf] at h hk ⊢
    exact List.nodup_append.mpr ⟨h, by simp, by simpa using hk⟩

theorem filter_length_insertA_none {α β : Type} [DecidableEq α] (l : List (α × β)) (k : α)
    (v : β) (P : α × β → Bool) (h : lookupA l k = none) :
    ((insertA l k v).filter P).length
      = (l.filter P).length + (if P (k, v) then 1 else 0) := by
  rw [insertA_of_lookup_none l k v h, List.filter_append]
  by_cases hp : P (k, v) <;> simp [hp]

theorem filter_length_insertA_some {α β : Type} [DecidableEq α] (l : List (α × β)) (k : α)
    (v old : β) (P : α × β → Bool) (h : lookupA l k = some old) :
    ((insertA l k v).filter P).length + (if P (k, old) then 1 else 0)
      = (l.filter P).length + (if P (k, v) then 1 else 0) := by
  induction l with
  | nil => simp [lookupA] at h
  | cons e rest ih =>
    obtain ⟨k₀, v₀⟩ := e
    by_cases h0 : k₀ = k
    · subst h0
      simp [lookupA] at h
      subst h
      simp only [insertA, if_pos rfl]
      by_cases hv : P (k₀, v) <;> by_cases ho : P (k₀, v₀) <;>
        simp [List.filter_cons, hv, ho]
    · simp [lookupA, h0] at h
      have ihh := ih h
      simp only [insertA, if_neg h0]
      by_cases h1 : P (k₀, v₀) <;> simp [List.filter_cons, h1] <;> omega

/-! ## Lemmas: Go insertion sort -/

theorem goInsertRev_perm {α : Type} (less : α → α → Bool) (x : α) (l : List α) :
    (goInsertRev less x l).Perm (x :: l) := by
  induction l with
  | nil => simp [goInsertRev]
  | cons y ys ih =>
    simp only [goInsertRev]
    by_cases h : less x y
    · simp only [if_pos h]
      exact (ih.cons y).trans (List.Perm.swap x y ys)
    · simp [if_neg h]

theorem goInsertRev_pairwise {α κ : Type} [LinearOrder κ] (key : α → κ) (less : α → α → Bool)
    (hless : ∀ a b, less a b = true ↔ key a < key b) (x : α) (l : List α)
    (h : l.Pairwise (fun a b => key b ≤ key a)) :
    (goInsertRev less x l).Pairwise (fun a b => key b ≤ key a) := by
  induction l with
  | nil => simp [goInsertRev]
  | cons y ys ih =>
    rw [List.pairwise_cons] at h
    simp only [goInsertRev]
    by_cases hb : less x y
    · have hlt : key x < key y := (hless x y).mp hb
      simp only [if_pos hb]
      rw [List.pairwise_cons]
      constructor
      · intro z hz
        have hz' := (goInsertRev_perm less x ys).mem_iff.mp hz
        rcases List.mem_cons.mp hz' with h1 | h1
        · subst h1; exact le_of_lt hlt
        · exact h.1 z h1
      · exact ih h.2
    · have hxy : key y ≤ key x :=
        le_of_not_lt (fun hc => hb ((hless x y).mpr hc))
      simp only [if_neg hb]
      rw [List.pairwise_cons]
      refine ⟨?_, List.pairwise_cons.mpr h⟩
      intro z hz
      rcases List.mem_cons.mp hz with h1 | h1
      · subst h1; exact hxy
      · exact le_trans (h.1 z h1) hxy

theorem goInsertionSort_foldl_perm {α : Type} (less : α → α → Bool) (l acc : List α) :
    (l.foldl (fun accRev x => goInsertRev less x accRev) acc).Perm (acc ++ l) := by
  induction l generalizing acc with
  | nil => simp
  | cons x xs ih =>
    simp only [List.foldl_cons]
    refine (ih (goInsertRev less x acc)).trans ?_
    have h1 : (goInsertRev less x acc ++ xs).Perm ((x :: acc) ++ xs) :=
      (goInsertRev_perm less x acc).append_right xs
    refine h1.trans ?_
    simpa using List.perm_middle.symm

theorem goInsertionSort_perm {α : Type} (less : α → α → Bool) (l : List α) :
    (goInsertionSort less l).Perm l := by
  unfold goInsertionSort
  refine (List.reverse_perm _).trans ?_
  simpa using goInsertionSort_foldl_perm less l []

theorem goInsertionSort_foldl_pairwise {α κ : Type} [LinearOrder κ] (key : α → κ)
    (less : α → α → Bool) (hless : ∀ a b, less a b = true ↔ key a < key b)
    (l acc : List α) (h : acc.Pairwise (fun a b => key b ≤ key a)) :
    (l.foldl (fun accRev x => goInsertRev less x accRev) acc).Pairwise
      (fun a b => key b ≤ key a) := by
  induction l generalizing acc with
  | nil => simpa
  | cons x xs ih =>
    simp only [List.foldl_cons]
    exact ih _ (goInsertRev_pairwise key less hless x acc h)

theorem goInsertionSort_sorted {α κ : Type} [LinearOrder κ] (key : α → κ)
    (less : α → α → Bool) (hless : ∀ a b, less a b = true ↔ key a < key b) (l : List α) :
    (goInsertionSort less l).Pairwise (fun a b => key a ≤ key b) := by
  unfold goInsertionSort
  rw [List.pairwise_reverse]
  exact goInsertionSort_foldl_pairwise key less hless l [] (by simp)

/-! ## Lemmas: the dedup-and-submit loop -/

theorem submitLoop_pairwise (failed : Nat → Bool) (l : List Nat) (last : Int)
    (h1 : l.Pairwise (fun a b => a ≤ b)) (h2 : ∀ x ∈ l, last ≤ (x : Int)) :
    (submitLoop failed last l).Pairwise (fun a b => a < b) ∧
      ∀ x ∈ submitLoop failed last l, last < (x : Int) := by
  induction l generalizing last with
  | nil => simp [submitLoop]
  | cons id rest ih =>
    rw [List.pairwise_cons] at h1
    simp only [submitLoop]
    by_cases heq : (id : Int) = last
    · simp only [if_pos heq]
      refine ih last h1.2 ?_
      intro x hx
      have := h1.1 x hx
      have := h2 id (by simp)
      omega
    · simp only [if_neg heq]
      have hlast : last < (id : Int) := by
        have := h2 id (by simp)
        omega
      have ihr := ih (id : Int) h1.2 (by intro x hx; exact_mod_cast h1.1 x hx)
      by_cases hf : failed id
      · simp only [if_pos hf]
        refine ⟨ihr.1, ?_⟩
        intro x hx
        have := ihr.2 x hx
        omega
      · simp only [if_neg hf]
        rw [List.pairwise_cons]
        refine ⟨⟨?_, ihr.1⟩, ?_⟩
        · intro x hx
          have := ihr.2 x hx
          omega
        · intro x hx
          rcases List.mem_cons.mp hx with h | h
          · subst h; exact hlast
          · have := ihr.2 x h
            omega

end ZenoSpec

namespace ZenoSpec

/-! ## Lemmas: metrics state machine -/

theorem insertA_insertA_same {α β : Type} [DecidableEq α] (l : List (α × β)) (k : α) (v w : β) :
    insertA (insertA l k v) k w = insertA l k w := by
  induction l with
  | nil => simp [insertA]
  | cons e rest ih =>
    obtain ⟨k₀, v₀⟩ := e
    by_cases h0 : k₀ = k
    · simp [insertA, h0]
    · simp [insertA, h0, ih]

theorem lookupA_mem {α β : Type} [DecidableEq α] {l : List (α × β)} {k : α} {v : β}
    (h : lookupA l k = some v) : (k, v) ∈ l := by
  induction l with
  | nil => simp [lookupA] at h
  | cons e rest ih =>
    obtain ⟨k₀, v₀⟩ := e
    by_cases h0 : k₀ = k
    · subst h0
      simp [lookupA] at h
      simp [h]
    · simp [lookupA, h0] at h
      simp [ih h]

theorem followerJoined_eq_of_fresh (s : MetricsState) (id p : Nat)
    (hlook : lookupA s.followerStats id = none) :
    followerJoined s id p =
      (match lookupA s.partitionStats p with
       | none =>
         { s with
             connectedFollowers := s.connectedFollowers + 1
             followerStats :=
               insertA s.followerStats id
                 { followerId := id, Partition := p, Queued := 0, Failed := false }
             partitionStats :=
               insertA s.partitionStats p { Partition := p, NumFollowers := 1 }
             connectedPartitions := s.connectedPartitions + 1 }
       | some ps =>
         { s with
             connectedFollowers := s.connectedFollowers + 1
             followerStats :=
               insertA s.followerStats id
                 { followerId := id, Partition := p, Queued := 0, Failed := false }
             partitionStats :=
               insertA s.partitionStats p { ps with NumFollowers := ps.NumFollowers + 1 } }) := by
  cases hp : lookupA s.partitionStats p with
  | none => simp [followerJoined, getFollowerStats, hlook, hp, insertA_insertA_same]
  | some ps => simp [followerJoined, getFollowerStats, hlook, hp, insertA_insertA_same]

theorem followerFailed_eq (s : MetricsState) (id : Nat) (fs : FollowerStats)
    (ps : PartitionStats) (h1 : lookupA s.followerStats id = some fs) (h2 : fs.Failed = false)
    (h3 : lookupA s.partitionStats fs.Partition = some ps) :
    followerFailed s id =
      some
        (if ps.NumFollowers - 1 = 0 then
          { s with
              connectedFollowers := s.connectedFollowers - 1
              followerStats := insertA s.followerStats id { fs with Failed := true }
              partitionStats :=
                insertA s.partitionStats fs.Partition
                  { ps with NumFollowers := ps.NumFollowers - 1 }
              connectedPartitions := s.connectedPartitions - 1 }
        else
          { s with
              connectedFollowers := s.connectedFollowers - 1
              followerStats := insertA s.followerStats id { fs with Failed := true }
              partitionStats :=
                insertA s.partitionStats fs.Partition
                  { ps with NumFollowers := ps.NumFollowers - 1 } }) := by
  by_cases hz : ps.NumFollowers - 1 = 0 <;>
    simp [followerFailed, h1, h2, h3, hz]

theorem inv_followerJoined (s : MetricsState) (id p : Nat) (hInv : MetricsInv s)
    (hOk : joinOk s id p = true) : MetricsInv (followerJoined s id p) := by
  obtain ⟨hNodup, hCP, hMem⟩ := hInv
  simp only [joinOk, Bool.and_eq_true, Option.isNone_iff_eq_none] at hOk
  obtain ⟨hFresh, hPart⟩ := hOk
  rw [followerJoined_eq_of_fresh s id p hFresh]
  cases hp : lookupA s.partitionStats p with
  | none =>
    simp only [hp]
    refine ⟨?_, ?_, ?_⟩
    · exact nodup_keys_insertA _ _ _ hNodup
    · show s.connectedPartitions + 1 = _
      have hcount := filter_length_insertA_none s.partitionStats p
        { Partition := p, NumFollowers := 1 }
        (fun e => decide (0 < e.2.NumFollowers)) hp
      simp only [countPositive] at hCP ⊢
      simp only [hcount]
      simp
      omega
    · intro e he
      rw [insertA_of_lookup_none s.followerStats id _ hFresh] at he
      rcases List.mem_append.mp he with h | h
      · exact lookupA_isSome_insertA _ _ _ _ (hMem e h)
      · simp at h
        subst h
        simp [lookupA_insertA_self]
  | some ps =>
    simp only [hp] at hPart ⊢
    refine ⟨?_, ?_, ?_⟩
    · exact nodup_keys_insertA _ _ _ hNodup
    · show s.connectedPartitions = _
      have hcount := filter_length_insertA_some s.partitionStats p
        { ps with NumFollowers := ps.NumFollowers + 1 } ps
        (fun e => decide (0 < e.2.NumFollowers)) hp
      simp only [countPositive] at hCP ⊢
      simp only [decide_eq_true_eq] at hcount hPart
      split_ifs at hcount <;> omega
    · intro e he
      rw [insertA_of_lookup_none s.followerStats id _ hFresh] at he
      rcases List.mem_append.mp he with h | h
      · exact lookupA_isSome_insertA _ _ _ _ (hMem e h)
      · simp at h
        subst h
        simp [lookupA_insertA_self]

theorem inv_followerFailed (s : MetricsState) (id : Nat) (hInv : MetricsInv s)
    (hOk : failOk s id = true) :
    ∃ s', followerFailed s id = some s' ∧ MetricsInv s' := by
  obtain ⟨hNodup, hCP, hMem⟩ := hInv
  simp only [failOk, Option.isSome_iff_exists] at hOk
  obtain ⟨fs, hfs⟩ := hOk
  by_cases hFailed : fs.Failed
  · refine ⟨s, ?_, hNodup, hCP, hMem⟩
    simp [followerFailed, hfs, hFailed]
  · have hpresent := hMem (id, fs) (lookupA_mem hfs)
    simp only at hpresent
    rw [Option.isSome_iff_exists] at hpresent
    obtain ⟨ps, hps⟩ := hpresent
    rw [followerFailed_eq s id fs ps hfs (by simpa using hFailed) hps]
    have hcount := filter_length_insertA_some s.partitionStats fs.Partition
      { ps with NumFollowers := ps.NumFollowers - 1 } ps
      (fun e => decide (0 < e.2.NumFollowers)) hps
    simp only [decide_eq_true_eq] at hcount
    have hMem' : ∀ e ∈ insertA s.followerStats id { fs with Failed := true },
        (lookupA (insertA s.partitionStats fs.Partition
          { ps with NumFollowers := ps.NumFollowers - 1 }) e.2.Partition).isSome = true := by
      intro e he
      rcases mem_insertA he with h | h
      · exact lookupA_isSome_insertA _ _ _ _ (hMem e h)
      · subst h
        simp [lookupA_insertA_self]
    by_cases hz : ps.NumFollowers - 1 = 0
    · refine ⟨_, by rw [if_pos hz], ?_, ?_, hMem'⟩
      · exact nodup_keys_insertA _ _ _ hNodup
      · show s.connectedPartitions - 1 = _
        simp only [countPositive] at hCP ⊢
        split_ifs at hcount <;> omega
    · refine ⟨_, by rw [if_neg hz], ?_, ?_, hMem'⟩
      · exact nodup_keys_insertA _ _ _ hNodup
      · show s.connectedPartitions = _
        simp only [countPositive] at hCP ⊢
        split_ifs at hcount <;> omega

theorem runOps_valid_inv (ops : List MetricsOp) (s : MetricsState) (hInv : MetricsInv s)
    (hValid : validOps s ops = true) :
    ∃ s', runOps s ops = some s' ∧ MetricsInv s' := by
  induction ops generalizing s with
  | nil => exact ⟨s, rfl, hInv⟩
  | cons op rest ih =>
    cases op with
    | join id p =>
      simp only [validOps, Bool.and_eq_true] at hValid
      have hInv' := inv_followerJoined s id p hInv hValid.1
      obtain ⟨s', hrun, hInv''⟩ := ih (followerJoined s id p) hInv' hValid.2
      exact ⟨s', by simpa [runOps, stepOp] using hrun, hInv''⟩
    | fail id =>
      simp only [validOps, Bool.and_eq_true] at hValid
      obtain ⟨s₁, hstep, hInv₁⟩ := inv_followerFailed s id hInv hValid.1
      have hValid₁ : validOps s₁ rest = true := by
        have := hValid.2
        rw [hstep] at this
        exact this
      obtain ⟨s', hrun, hInv'⟩ := ih s₁ hInv₁ hValid₁
      refine ⟨s', ?_, hInv'⟩
      simp only [runOps, List.foldlM, stepOp, hstep]
      exact hrun

theorem validOps_append_left (pre : List MetricsOp) (s : MetricsState) (suf : List MetricsOp)
    (h : validOps s (pre ++ suf) = true) : validOps s pre = true := by
  induction pre generalizing s with
  | nil => rfl
  | cons op rest ih =>
    cases op with
    | join id p =>
      simp only [List.cons_append, validOps, Bool.and_eq_true] at h ⊢
      exact ⟨h.1, ih _ h.2⟩
    | fail id =>
      simp only [List.cons_append, validOps, Bool.and_eq_true] at h ⊢
      refine ⟨h.1, ?_⟩
      cases hstep : followerFailed s id with
      | none => rw [hstep] at h; simpa using h.2
      | some s₁ =>
        rw [hstep] at h
        exact ih _ h.2

theorem metricsInv_reset : MetricsInv resetState := by
  refine ⟨?_, ?_, ?_⟩ <;> simp [resetState, keysOf, countPositive, MetricsInv]

end ZenoSpec

namespace ZenoSpec

theorem iterateFail_fixed (s : MetricsState) (id : Nat) (h : followerFailed s id = some s) :
    ∀ k, iterateFail k s id = some s := by
  intro k
  induction k with
  | zero => rfl
  | succ k ih => simp [iterateFail, h, ih]

/-- C1 is refuted on the code: the sequence join(f1,p), fail(f1), join(f2,p),
fail(f2) — each join with a fresh id, each fail on a previously joined id,
exactly as the claim requires — leaves ConnectedPartitions = -1.  The second
join finds the partition stats entry still present (with zero followers), so
ConnectedPartitions is not re-incremented, while the second fail decrements it
again. -/
theorem c1_counterexample :
    claimValidOps resetState
        [MetricsOp.join 1 7, MetricsOp.fail 1, MetricsOp.join 2 7, MetricsOp.fail 2] = true ∧
    (runOps resetState
        [MetricsOp.join 1 7, MetricsOp.fail 1, MetricsOp.join 2 7, MetricsOp.fail 2]).map
        MetricsState.connectedPartitions = some (-1) ∧
    ¬ (0 : Int) ≤ -1 := by
  refine ⟨by decide, by decide, by decide⟩

/-- C1 (amended): along every event sequence from the reset state in which
each join uses a fresh id and targets a partition that is either absent from
the partition table or currently has a positive follower count, and each fail
targets a previously joined id, ConnectedPartitions is non-negative after
every call (the restriction on re-joined empty partitions is exactly what the
counterexample violates). -/
theorem c1_connectedPartitions_nonneg (ops pre suf : List MetricsOp)
    (hValid : validOps resetState ops = true) (hsplit : ops = pre ++ suf) :
    cpOk (runOps resetState pre) := by
  subst hsplit
  have hpre := validOps_append_left pre resetState suf hValid
  obtain ⟨s', hrun, hInv⟩ := runOps_valid_inv pre resetState metricsInv_reset hpre
  rw [hrun]
  show (0 : Int) ≤ s'.connectedPartitions
  rw [hInv.2.1]
  exact Int.natCast_nonneg _

/-- Witness for the amended C1 theorem at a concrete valid sequence. -/
theorem c1_witness : cpOk (runOps resetState [MetricsOp.join 1 7, MetricsOp.fail 1]) :=
  c1_connectedPartitions_nonneg
    [MetricsOp.join 1 7, MetricsOp.fail 1, MetricsOp.join 2 3]
    [MetricsOp.join 1 7, MetricsOp.fail 1] [MetricsOp.join 2 3] (by decide) (by decide)

/-- C8: for a follower registered via FollowerJoined and not yet failed,
FollowerFailed decrements ConnectedFollowers by exactly 1, sets the Failed
flag, decrements its partition's NumFollowers by exactly 1, and is then
absorbing: any k >= 1 consecutive calls produce exactly the state of the first
call, so calls after the first leave all stats unchanged. -/
theorem c8_followerFailed_idempotent (s : MetricsState) (id : Nat) (fs : FollowerStats)
    (ps : PartitionStats) (h1 : lookupA s.followerStats id = some fs)
    (h2 : fs.Failed = false) (h3 : lookupA s.partitionStats fs.Partition = some ps) :
    ∃ s', followerFailed s id = some s' ∧
      s'.connectedFollowers = s.connectedFollowers - 1 ∧
      lookupA s'.followerStats id = some { fs with Failed := true } ∧
      lookupA s'.partitionStats fs.Partition
        = some { ps with NumFollowers := ps.NumFollowers - 1 } ∧
      followerFailed s' id = some s' ∧
      ∀ k, 1 ≤ k → iterateFail k s id = some s' := by
  have hEq := followerFailed_eq s id fs ps h1 h2 h3
  by_cases hz : ps.NumFollowers - 1 = 0
  · rw [if_pos hz] at hEq
    have habsorb : followerFailed
        { s with
            connectedFollowers := s.connectedFollowers - 1
            followerStats := insertA s.followerStats id { fs with Failed := true }
            partitionStats :=
              insertA s.partitionStats fs.Partition
                { ps with NumFollowers := ps.NumFollowers - 1 }
            connectedPartitions := s.connectedPartitions - 1 } id =
        some
          { s with
              connectedFollowers := s.connectedFollowers - 1
              followerStats := insertA s.followerStats id { fs with Failed := true }
              partitionStats :=
                insertA s.partitionStats fs.Partition
                  { ps with NumFollowers := ps.NumFollowers - 1 }
              connectedPartitions := s.connectedPartitions - 1 } := by
      simp [followerFailed, lookupA_insertA_self]
    refine ⟨_, hEq, rfl, lookupA_insertA_self _ _ _, lookupA_insertA_self _ _ _, habsorb, ?_⟩
    intro k hk
    obtain ⟨k', rfl⟩ : ∃ k', k = k' + 1 := ⟨k - 1, by omega⟩
    simp only [iterateFail, hEq]
    exact iterateFail_fixed _ id habsorb k'
  · rw [if_neg hz] at hEq
    have habsorb : followerFailed
        { s with
            connectedFollowers := s.connectedFollowers - 1
            followerStats := insertA s.followerStats id { fs with Failed := true }
            partitionStats :=
              insertA s.partitionStats fs.Partition
                { ps with NumFollowers := ps.NumFollowers - 1 } } id =
        some
          { s with
              connectedFollowers := s.connectedFollowers - 1
              followerStats := insertA s.followerStats id { fs with Failed := true }
              partitionStats :=
                insertA s.partitionStats fs.Partition
                  { ps with NumFollowers := ps.NumFollowers - 1 } } := by
      simp [followerFailed, lookupA_insertA_self]
    refine ⟨_, hEq, rfl, lookupA_insertA_self _ _ _, lookupA_insertA_self _ _ _, habsorb, ?_⟩
    intro k hk
    obtain ⟨k', rfl⟩ : ∃ k', k = k' + 1 := ⟨k - 1, by omega⟩
    simp only [iterateFail, hEq]
    exact iterateFail_fixed _ id habsorb k'

/-- Witness for the C8 theorem: a follower joined from the reset state. -/
theorem c8_witness :
    ∃ s', followerFailed (followerJoined resetState 1 4) 1 = some s' ∧
      s'.connectedFollowers = (followerJoined resetState 1 4).connectedFollowers - 1 ∧
      lookupA s'.followerStats 1
        = some { followerId := 1, Partition := 4, Queued := 0, Failed := true } ∧
      lookupA s'.partitionStats 4 = some { Partition := 4, NumFollowers := 0 } ∧
      followerFailed s' 1 = some s' ∧
      ∀ k, 1 ≤ k → iterateFail k (followerJoined resetState 1 4) 1 = some s' :=
  c8_followerFailed_idempotent (followerJoined resetState 1 4) 1
    { followerId := 1, Partition := 4, Queued := 0, Failed := false }
    { Partition := 4, NumFollowers := 1 } (by decide) (by decide) (by decide)

end ZenoSpec

namespace ZenoSpec

/-- C7 is refuted: submit on a failed session is not idempotent.  The first
call closes the queue; a second call reaches close(f.entries) again, and in Go
closing a closed channel panics. -/
theorem c7_counterexample :
    submit { hasFailed := true, entries := { buffer := [], closed := false } }
        { stream := "s", data := [], offset := 0 } =
      some { hasFailed := true, entries := { buffer := [], closed := true } } ∧
    (submit { hasFailed := true, entries := { buffer := [], closed := false } }
          { stream := "s", data := [], offset := 0 }).bind
        (fun f => submit f { stream := "s", data := [], offset := 0 }) = none := by
  exact ⟨by decide, by decide⟩

/-- C7 (amended): submit on a failed session whose queue is still open closes
the queue without sending; a subsequent submit on the now-closed failed
session panics (Go close of a closed channel) instead of completing without
error; on a non-failed session with an open queue, submit sends the entry. -/
theorem c7_submit_closes_then_panics (f : FollowerSession) (e : walEntry) :
    (f.hasFailed = true → f.entries.closed = false →
      submit f e = some { f with entries := { f.entries with closed := true } }) ∧
    (f.hasFailed = true → f.entries.closed = true → submit f e = none) ∧
    (f.hasFailed = false → f.entries.closed = false →
      submit f e =
        some { f with entries := { f.entries with buffer := f.entries.buffer ++ [e] } }) := by
  refine ⟨?_, ?_, ?_⟩ <;> intro h1 h2 <;> simp [submit, closeChan, sendChan, h1, h2]

/-- Witness for the amended C7 theorem. -/
theorem c7_witness :
    submit { hasFailed := true, entries := { buffer := [], closed := false } }
        { stream := "s", data := [1], offset := 3 } =
      some { hasFailed := true, entries := { buffer := [], closed := true } } :=
  (c7_submit_closes_then_panics
      { hasFailed := true, entries := { buffer := [], closed := false } }
      { stream := "s", data := [1], offset := 3 }).1 rfl rfl

/-- C9: one step of the read loop.  An already-failed session drops the entry
without invoking the callback; an oversize entry (data longer than 2000000
bytes) is dropped with a warning and does not fail the session; otherwise the
callback is invoked on (data, offset), and a callback error marks the session
failed and emits the follower-failed metric, while the loop keeps draining
subsequent entries. -/
theorem c9_read_cases (cbErr : List Nat → Nat → Bool) (s : ReadObs) (entry : walEntry)
    (rest : List walEntry) :
    (s.hasFailed = true → readEntry cbErr s entry = s) ∧
    (s.hasFailed = false → entry.data.length > 2000000 →
      readEntry cbErr s entry = { s with oversizeWarnings := s.oversizeWarnings + 1 }) ∧
    (s.hasFailed = false → ¬ entry.data.length > 2000000 →
      (cbErr entry.data entry.offset = true →
        readEntry cbErr s entry =
          { s with
              delivered := s.delivered ++ [(entry.data, entry.offset)]
              hasFailed := true
              failMetricEmissions := s.failMetricEmissions + 1 }) ∧
      (cbErr entry.data entry.offset = false →
        readEntry cbErr s entry =
          { s with delivered := s.delivered ++ [(entry.data, entry.offset)] })) ∧
    readLoop cbErr s (entry :: rest) = readLoop cbErr (readEntry cbErr s entry) rest := by
  refine ⟨?_, ?_, ?_, rfl⟩
  · intro h1
    simp [readEntry, h1]
  · intro h1 h2
    simp [readEntry, h1, h2]
  · intro h1 h2
    refine ⟨?_, ?_⟩ <;> intro h3 <;> simp [readEntry, h1, h2, h3]

/-- Witness for the C9 theorem: an erroring callback on a small entry. -/
theorem c9_witness :
    readEntry (fun _ _ => true)
        { hasFailed := false, delivered := [], failMetricEmissions := 0, oversizeWarnings := 0 }
        { stream := "s", data := [7], offset := 2 } =
      { hasFailed := true, delivered := [([7], 2)], failMetricEmissions := 1,
        oversizeWarnings := 0 } :=
  ((c9_read_cases (fun _ _ => true)
      { hasFailed := false, delivered := [], failMetricEmissions := 0, oversizeWarnings := 0 }
      { stream := "s", data := [7], offset := 2 } []).2.2.1 rfl (by decide)).1 rfl

end ZenoSpec

namespace ZenoSpec

/-! ## Lemmas: partition hashing -/

theorem digest_foldl (dims : ByteMap) (keys : List String) (h : List Nat) :
    keys.foldl
        (fun h partitionKey =>
          let b := dims.getBytes partitionKey
          if b.length > 0 then h ++ b else h)
        h
      = h ++ (keys.map (fun k => dims.getBytes k)).flatten := by
  induction keys generalizing h with
  | nil => simp
  | cons k ks ih =>
    simp only [List.foldl_cons, List.map_cons, List.flatten_cons]
    by_cases hb : (dims.getBytes k).length > 0
    · simp only [if_pos hb]
      rw [ih, List.append_assoc]
    · have hnil : dims.getBytes k = [] := List.eq_nil_of_length_eq_zero (by omega)
      simp only [if_neg hb]
      rw [ih, hnil]
      simp

/-- C4: partitionFor resets the hash, digests exactly the specified byte
stream — for non-empty keys the value bytes of each key in order, with keys
absent from the map or holding empty values contributing no bytes; for empty
keys the whole dimension-map slice — and returns the 32-bit hash of that
stream mod NumPartitions, a value in the interval from 0 inclusive to
NumPartitions exclusive. -/
theorem c4_partitionFor (numPartitions : Nat) (sum32 : List Nat → Nat) (dims : ByteMap)
    (partitionKeys : List String) (hN : 0 < numPartitions) :
    partitionFor numPartitions sum32 dims partitionKeys < numPartitions ∧
    partitionFor numPartitions sum32 dims partitionKeys
      = sum32 (specDigest dims partitionKeys) % numPartitions := by
  refine ⟨Nat.mod_lt _ hN, ?_⟩
  unfold partitionFor specDigest
  by_cases hk : partitionKeys = []
  · subst hk
    simp
  · have hlen : partitionKeys.length > 0 := List.length_pos.mpr hk
    simp [hlen, hk, digest_foldl]

/-- Witness for the C4 theorem. -/
theorem c4_witness :
    partitionFor 4 List.sum { raw := [9], entries := [("a", [1, 2]), ("b", [])] }
        ["b", "a", "c"] < 4 ∧
    partitionFor 4 List.sum { raw := [9], entries := [("a", [1, 2]), ("b", [])] }
        ["b", "a", "c"]
      = List.sum (specDigest { raw := [9], entries := [("a", [1, 2]), ("b", [])] }
          ["b", "a", "c"]) % 4 :=
  c4_partitionFor 4 List.sum { raw := [9], entries := [("a", [1, 2]), ("b", [])] }
    ["b", "a", "c"] (by decide)

/-! ## Lemmas: string sorting -/

theorem sortStringsGo_perm (l : List String) : (sortStringsGo l).Perm l :=
  goInsertionSort_perm (fun a b => decide (a < b)) l

theorem sortStringsGo_sorted (l : List String) :
    (sortStringsGo l).Pairwise (fun a b => a ≤ b) :=
  goInsertionSort_sorted (fun s => s) (fun a b => decide (a < b)) (fun a b => by simp) l

/-- C10: sortedPartitionKeys sorts its argument in place — the returned list
is the caller's slice, now an ascending permutation of the original — and
returns the sorted keys joined by the bar separator; an empty list is returned
untouched together with the empty string.  At the call sites, the joining
follower's Partition.Keys and the local table's PartitionBy hold the sorted
list afterwards. -/
theorem c10_sortedPartitionKeys (keys : List String) (p : PartitionReq) (t : TableLocal) :
    (keys ≠ [] →
      (sortedPartitionKeys keys).2 = sortStringsGo keys ∧
      (sortStringsGo keys).Perm keys ∧
      (sortStringsGo keys).Pairwise (fun a b => a ≤ b) ∧
      (sortedPartitionKeys keys).1 = String.intercalate "|" (sortStringsGo keys)) ∧
    (keys = [] → sortedPartitionKeys keys = ("", keys)) ∧
    (joinKeysEffect p).2.Keys = (sortedPartitionKeys p.Keys).2 ∧
    (joinKeysEffect p).1 = sortedPartitionKeys p.Keys ∧
    (followLeaderKeysEffect t).2.PartitionBy = (sortedPartitionKeys t.PartitionBy).2 ∧
    (followLeaderKeysEffect t).1 = sortedPartitionKeys t.PartitionBy := by
  refine ⟨?_, ?_, rfl, rfl, rfl, rfl⟩
  · intro hne
    have hlen : ¬ keys.length = 0 := by
      simpa [List.length_eq_zero] using hne
    exact ⟨by simp [sortedPartitionKeys, hlen], sortStringsGo_perm keys,
      sortStringsGo_sorted keys, by simp [sortedPartitionKeys, hlen]⟩
  · intro he
    subst he
    simp [sortedPartitionKeys]

/-- Witness for the C10 theorem. -/
theorem c10_witness :
    (["b", "a"] ≠ ([] : List String) →
      (sortedPartitionKeys ["b", "a"]).2 = sortStringsGo ["b", "a"] ∧
      (sortStringsGo ["b", "a"]).Perm ["b", "a"] ∧
      (sortStringsGo ["b", "a"]).Pairwise (fun a b => a ≤ b) ∧
      (sortedPartitionKeys ["b", "a"]).1 = String.intercalate "|" (sortStringsGo ["b", "a"])) ∧
    (["b", "a"] = ([] : List String) → sortedPartitionKeys ["b", "a"] = ("", ["b", "a"])) ∧
    (joinKeysEffect { Keys := ["b", "a"], Tables := [] }).2.Keys
      = (sortedPartitionKeys ["b", "a"]).2 ∧
    (joinKeysEffect { Keys := ["b", "a"], Tables := [] }).1
      = sortedPartitionKeys ["b", "a"] ∧
    (followLeaderKeysEffect { Name := "t", PartitionBy := ["b", "a"] }).2.PartitionBy
      = (sortedPartitionKeys ["b", "a"]).2 ∧
    (followLeaderKeysEffect { Name := "t", PartitionBy := ["b", "a"] }).1
      = sortedPartitionKeys ["b", "a"] :=
  c10_sortedPartitionKeys ["b", "a"] { Keys := ["b", "a"], Tables := [] }
    { Name := "t", PartitionBy := ["b", "a"] }

/-! ## Lemmas: per-table result processing -/

theorem processSpecsInclude_eq (offset : Nat) (specs : List followSpec) (acc : List Nat) :
    processSpecsInclude offset specs acc =
      acc ++ (specs.filter (fun s => offsetAfter offset s.offset)).map followSpec.followerID := by
  induction specs generalizing acc with
  | nil => simp [processSpecsInclude]
  | cons s rest ih =>
    simp only [processSpecsInclude, List.foldl_cons] at ih ⊢
    by_cases h : offsetAfter offset s.offset
    · simp only [if_pos h, List.filter_cons, h]
      rw [ih]
      simp
    · simp only [if_neg h, List.filter_cons, h]
      rw [ih]
      simp

theorem advanceSpecs_forall₂ (offset : Nat) (specs : List followSpec) :
    List.Forall₂
      (fun s t =>
        (offsetAfter offset s.offset = true →
          t = { followerID := s.followerID, offset := offset }) ∧
        (offsetAfter offset s.offset = false → t = s))
      specs (advanceSpecs offset specs) := by
  induction specs with
  | nil => simp [advanceSpecs]
  | cons s rest ih =>
    simp only [advanceSpecs, List.map_cons] at ih ⊢
    refine List.Forall₂.cons ?_ ih
    constructor <;> intro h <;> simp [h]

/-- C3: when the dispatcher processes a pipeline result for an entry against a
table with a non-empty followers[pid] list: every spec whose offset the entry
offset is After is advanced to the entry offset whether or not the predicate
passed, every other spec is left unchanged, and the included delivery list
gains exactly the followerIDs of the specs with smaller offset — and only when
wherePassed is true. -/
theorem c3_processTable (offset : Nat) (pr : partitionResult) (tableName : String)
    (table : tableSpec) (acc : List Nat) (specs : List followSpec)
    (hspecs : lookupA table.followers pr.pid = some specs) (hne : specs.length ≠ 0) :
    (processTable offset pr tableName table acc).1
      = acc ++
        (if (lookupA pr.wherePassed tableName).getD false then
          (specs.filter (fun s => offsetAfter offset s.offset)).map followSpec.followerID
        else []) ∧
    (processTable offset pr tableName table acc).2
      = { table with followers := insertA table.followers pr.pid (advanceSpecs offset specs) } ∧
    List.Forall₂
      (fun s t =>
        (offsetAfter offset s.offset = true →
          t = { followerID := s.followerID, offset := offset }) ∧
        (offsetAfter offset s.offset = false → t = s))
      specs (advanceSpecs offset specs) := by
  unfold processTable
  rw [hspecs]
  simp only [Option.getD_some, if_neg hne]
  refine ⟨?_, by trivial, advanceSpecs_forall₂ offset specs⟩
  by_cases hw : (lookupA pr.wherePassed tableName).getD false
  · simp [hw, processSpecsInclude_eq]
  · simp [hw]

/-- Witness for the C3 theorem: entry offset 5, one spec behind (offset 3) and
one ahead (offset 7), predicate passed. -/
theorem c3_witness :
    (processTable 5 { pid := 2, wherePassed := [("t", true)] } "t"
        { whereString := "", followers := [(2, [{ followerID := 1, offset := 3 },
          { followerID := 9, offset := 7 }])] } []).1
      = [] ++
        (if (lookupA [("t", true)] "t").getD false then
          (([{ followerID := 1, offset := 3 }, { followerID := 9, offset := 7 }]).filter
              (fun s => offsetAfter 5 s.offset)).map followSpec.followerID
        else []) ∧
    (processTable 5 { pid := 2, wherePassed := [("t", true)] } "t"
        { whereString := "", followers := [(2, [{ followerID := 1, offset := 3 },
          { followerID := 9, offset := 7 }])] } []).2
      = { whereString := "",
          followers :=
            insertA [(2, [{ followerID := 1, offset := 3 }, { followerID := 9, offset := 7 }])]
              2 (advanceSpecs 5 [{ followerID := 1, offset := 3 },
                { followerID := 9, offset := 7 }]) } ∧
    List.Forall₂
      (fun s t =>
        (offsetAfter 5 s.offset = true →
          t = { followerID := s.followerID, offset := 5 }) ∧
        (offsetAfter 5 s.offset = false → t = s))
      [{ followerID := 1, offset := 3 }, { followerID := 9, offset := 7 }]
      (advanceSpecs 5 [{ followerID := 1, offset := 3 }, { followerID := 9, offset := 7 }]) :=
  c3_processTable 5 { pid := 2, wherePassed := [("t", true)] } "t"
    { whereString := "", followers := [(2, [{ followerID := 1, offset := 3 },
      { followerID := 9, offset := 7 }])] } []
    [{ followerID := 1, offset := 3 }, { followerID := 9, offset := 7 }] (by decide) (by decide)

end ZenoSpec

namespace ZenoSpec

theorem copyFollowers_id (l : List (Nat × List SpecAddr)) :
    List.map (fun fe => (fe.1, fe.2)) l = l := by
  induction l with
  | nil => rfl
  | cons fe rest ih => simp only [List.map_cons, ih]

theorem copyTables_id (l : List (String × tableSpecA)) :
    List.map
        (fun te =>
          (te.1,
            ({ whereString := te.2.whereString,
               followers := List.map (fun fe => (fe.1, fe.2)) te.2.followers } : tableSpecA)))
        l = l := by
  induction l with
  | nil => rfl
  | cons te rest ih => rw [List.map_cons, ih, copyFollowers_id]

theorem copyPartitions_id (l : List (String × partitionSpecA)) :
    List.map
        (fun pe =>
          (pe.1,
            ({ keys := pe.2.keys,
               tables :=
                 List.map
                   (fun te =>
                     (te.1,
                       ({ whereString := te.2.whereString,
                          followers :=
                            List.map (fun fe => (fe.1, fe.2)) te.2.followers } : tableSpecA)))
                   pe.2.tables } : partitionSpecA)))
        l = l := by
  induction l with
  | nil => rfl
  | cons pe rest ih => rw [List.map_cons, ih, copyTables_id]

/-- C6 fails on the code: sortedFollowerStats.Less lacks the equal-partition
guard, so it is not a strict weak ordering — the two follower stats below are
each Less than the other.  GetStats collects the map values in Go's
unspecified map iteration order and sorts with this Less; for the reachable
table {follower 1 on partition 2, follower 2 on partition 1} and iteration
order [follower 2, follower 1], the sort swaps the (already lexicographically
ordered) pair and returns a Followers list that is not sorted by
(Partition, followerId). -/
theorem c6_code_bug :
    (runOps resetState [MetricsOp.join 1 2, MetricsOp.join 2 1]).map
        MetricsState.followerStats
      = some [(1, { followerId := 1, Partition := 2, Queued := 0, Failed := false }),
              (2, { followerId := 2, Partition := 1, Queued := 0, Failed := false })] ∧
    lessFollowerStats { followerId := 1, Partition := 2, Queued := 0, Failed := false }
        { followerId := 2, Partition := 1, Queued := 0, Failed := false } = true ∧
    lessFollowerStats { followerId := 2, Partition := 1, Queued := 0, Failed := false }
        { followerId := 1, Partition := 2, Queued := 0, Failed := false } = true ∧
    List.Perm
      ([(2, { followerId := 2, Partition := 1, Queued := 0, Failed := false }),
        (1, { followerId := 1, Partition := 2, Queued := 0, Failed := false })] :
          List (Nat × FollowerStats))
      ([(1, { followerId := 1, Partition := 2, Queued := 0, Failed := false }),
        (2, { followerId := 2, Partition := 1, Queued := 0, Failed := false })] :
          List (Nat × FollowerStats)) ∧
    getStatsFollowers
        [(2, { followerId := 2, Partition := 1, Queued := 0, Failed := false }),
         (1, { followerId := 1, Partition := 2, Queued := 0, Failed := false })]
      = [{ followerId := 1, Partition := 2, Queued := 0, Failed := false },
         { followerId := 2, Partition := 1, Queued := 0, Failed := false }] ∧
    ¬ followersLexOrdered
        [{ followerId := 1, Partition := 2, Queued := 0, Failed := false },
         { followerId := 2, Partition := 1, Queued := 0, Failed := false }] := by
  refine ⟨by decide, by decide, by decide, by decide, by decide, ?_⟩
  simp [followersLexOrdered, List.chain'_cons]

/-- C5 fails on the code: the copy shares the followSpec records (the spec
slices are assigned into the rebuilt maps unchanged), so after the dispatcher
advances a spec's offset while processing a result, an old copy handed out
earlier observes the advanced offset (5), not the offset the spec had when the
copy was handed out (1).  The first conjunct shows the copy holds the very
same spec address. -/
theorem c5_counterexample :
    copyStreams [("s", [("k", { keys := ["k"], tables :=
        [("t", { whereString := "", followers := [(1, [0])] })] })])]
      = [("s", [("k", { keys := ["k"], tables :=
          [("t", { whereString := "", followers := [(1, [0])] })] })])] ∧
    observedOffset { recs := [(0, { followerID := 3, offset := 1 })] } 0 = some 1 ∧
    observedOffset (advanceSpecAddr { recs := [(0, { followerID := 3, offset := 1 })] } 0 5) 0
      = some 5 ∧
    some (5 : Nat) ≠ some 1 := by
  exact ⟨by decide, by decide, by decide, by decide⟩

/-- C5 (amended): the dispatcher's copy is shallow at the followSpec level.
The copy holds exactly the original's structure and spec addresses, so offset
advances performed while processing pipeline results are observed through
every previously handed-out copy; appending a spec for a subsequent joiner
rewrites only the target pid entry of the map it is performed on — every
other pid entry keeps its spec list, and old copies (separate map structures)
are untouched by the append. -/
theorem c5_copy_is_shallow :
    (∀ streams : StreamsA, copyStreams streams = streams) ∧
    (∀ (store : SpecStore) (a : SpecAddr) (off : Nat) (r : followSpec),
      lookupA store.recs a = some r → offsetAfter off r.offset = true →
      observedOffset (advanceSpecAddr store a off) a = some off) ∧
    (∀ (t : tableSpecA) (pn : Nat) (a : SpecAddr),
      lookupA (appendSpecAddr t pn a).followers pn
        = some (((lookupA t.followers pn).getD []) ++ [a]) ∧
      ∀ pn', pn' ≠ pn →
        lookupA (appendSpecAddr t pn a).followers pn' = lookupA t.followers pn') := by
  refine ⟨?_, ?_, ?_⟩
  · intro streams
    unfold copyStreams
    induction streams with
    | nil => rfl
    | cons se rest ih => rw [List.map_cons, ih, copyPartitions_id]
  · intro store a off r hr hoff
    unfold advanceSpecAddr observedOffset
    rw [hr]
    simp [hoff, lookupA_insertA_self]
  · intro t pn a
    constructor
    · unfold appendSpecAddr
      simp [lookupA_insertA_self]
    · intro pn' hne
      unfold appendSpecAddr
      simp [lookupA_insertA_ne _ _ _ _ hne]

/-- Witness for the amended C5 theorem. -/
theorem c5_witness :
    observedOffset (advanceSpecAddr { recs := [(0, { followerID := 3, offset := 1 })] } 0 9) 0
      = some 9 :=
  c5_copy_is_shallow.2.1 { recs := [(0, { followerID := 3, offset := 1 })] } 0 9
    { followerID := 3, offset := 1 } (by decide) (by decide)

end ZenoSpec

namespace ZenoSpec

/-! ## Lemmas: reducer and dispatcher ordering -/

theorem lessByOffset_iff (a b : partitionsResult) :
    lessByOffset a b = true ↔ a.entry.offset < b.entry.offset := by
  simp [lessByOffset, offsetAfter]

theorem natLess_iff (a b : Nat) : decide (a < b) = true ↔ a < b := by simp

theorem reduce_forall₂ (qs : List Nat) (mapped : List partitionsResult)
    (h : qs.sum ≤ mapped.length) :
    List.Forall₂ (fun n out => out.length = n) qs (reducePartitionRequests qs mapped) ∧
    List.Forall₂
      (fun seg out => out.Perm seg ∧
        out.Pairwise (fun a b => a.entry.offset ≤ b.entry.offset))
      (batchSegments qs mapped) (reducePartitionRequests qs mapped) := by
  induction qs generalizing mapped with
  | nil => exact ⟨List.Forall₂.nil, List.Forall₂.nil⟩
  | cons n rest ih =>
    have hsum : n + rest.sum ≤ mapped.length := by simpa [List.sum_cons] using h
    have hlen2 : rest.sum ≤ (mapped.drop n).length := by
      rw [List.length_drop]
      omega
    obtain ⟨ih1, ih2⟩ := ih (mapped.drop n) hlen2
    constructor
    · refine List.Forall₂.cons ?_ ih1
      show (sortByOffset (mapped.take n)).length = n
      unfold sortByOffset
      rw [(goInsertionSort_perm lessByOffset (mapped.take n)).length_eq, List.length_take]
      omega
    · refine List.Forall₂.cons ?_ ih2
      exact ⟨goInsertionSort_perm lessByOffset (mapped.take n),
        goInsertionSort_sorted (fun r => r.entry.offset) lessByOffset lessByOffset_iff
          (mapped.take n)⟩

theorem processFollowersResult_log (failed : Nat → Bool) (streams : StreamsMap)
    (r : partitionsResult) (s1 : StreamsMap) (log1 : List (Nat × Nat))
    (h : processFollowersResult failed streams r = some (s1, log1)) :
    (∀ d ∈ log1, d.2 = r.entry.offset) ∧
      (log1.map Prod.fst).Pairwise (fun a b => a < b) := by
  unfold processFollowersResult at h
  cases hs : lookupA streams r.entry.stream with
  | none =>
    rw [hs] at h
    have h' : some (streams, ([] : List (Nat × Nat))) = some (s1, log1) := h
    simp only [Option.some.injEq, Prod.mk.injEq] at h'
    obtain ⟨-, h2⟩ := h'
    subst h2
    simp
  | some partitions =>
    rw [hs] at h
    have h1 :
        (match processResultPartitions r.entry.offset r.partitions partitions [] with
          | none => (none : Option (StreamsMap × List (Nat × Nat)))
          | some (included, partitions1) =>
            some (insertA streams r.entry.stream partitions1,
              (if included.length > 0 then
                submitLoop failed (-1) (goInsertionSort (fun a b => decide (a < b)) included)
              else []).map (fun id => (id, r.entry.offset)))) = some (s1, log1) := h
    cases hp : processResultPartitions r.entry.offset r.partitions partitions [] with
    | none =>
      rw [hp] at h1
      exact Option.noConfusion h1
    | some pr =>
      obtain ⟨included, partitions1⟩ := pr
      rw [hp] at h1
      have h2 :
          some (insertA streams r.entry.stream partitions1,
            (if included.length > 0 then
              submitLoop failed (-1) (goInsertionSort (fun a b => decide (a < b)) included)
            else []).map (fun id => (id, r.entry.offset))) = some (s1, log1) := h1
      simp only [Option.some.injEq, Prod.mk.injEq] at h2
      obtain ⟨-, hlog⟩ := h2
      subst hlog
      constructor
      · intro d hd
        rw [List.mem_map] at hd
        obtain ⟨id, -, h3⟩ := hd
        rw [← h3]
      · rw [List.map_map]
        have hcomp : (Prod.fst ∘ fun id : Nat => (id, r.entry.offset)) = fun id : Nat => id :=
          rfl
        rw [hcomp, List.map_id']
        by_cases hlen : included.length > 0
        · rw [if_pos hlen]
          have hsorted : (goInsertionSort (fun a b => decide (a < b)) included).Pairwise
              (fun a b : Nat => a ≤ b) :=
            goInsertionSort_sorted (fun n => n) (fun a b => decide (a < b)) natLess_iff
              included
          have hge : ∀ x ∈ goInsertionSort (fun a b => decide (a < b)) included,
              (-1 : Int) ≤ (x : Int) := by
            intro x hx
            have hge0 := Int.natCast_nonneg x
            omega
          exact (submitLoop_pairwise failed _ (-1) hsorted hge).1
        · rw [if_neg hlen]
          simp

theorem deliveredOffsetsTo_single (fid off : Nat) (log1 : List (Nat × Nat))
    (hoff : ∀ d ∈ log1, d.2 = off)
    (hids : (log1.map Prod.fst).Pairwise (fun a b => a < b)) :
    List.Sublist (deliveredOffsetsTo fid log1) [off] := by
  induction log1 with
  | nil => simp [deliveredOffsetsTo]
  | cons d rest ih =>
    simp only [List.map_cons, List.pairwise_cons] at hids
    unfold deliveredOffsetsTo at ih ⊢
    by_cases hd : d.1 = fid
    · have hrest : List.filter (fun e => decide (e.1 = fid)) rest = [] := by
        rw [List.filter_eq_nil_iff]
        intro a ha
        have h1 := hids.1 a.1 (List.mem_map_of_mem Prod.fst ha)
        simp only [decide_eq_true_eq]
        omega
      have hfil : List.filter (fun e => decide (e.1 = fid)) (d :: rest) = [d] := by
        rw [List.filter_cons]
        simp [hd, hrest]
      rw [hfil, List.map_cons, List.map_nil, hoff d (by simp)]
    · have hfil : List.filter (fun e => decide (e.1 = fid)) (d :: rest) =
          List.filter (fun e => decide (e.1 = fid)) rest := by
        rw [List.filter_cons]
        simp [hd]
      rw [hfil]
      exact ih (fun e he => hoff e (by simp [he])) hids.2

theorem runDispatcher_sublist (failed : Nat → Bool) (streams : StreamsMap)
    (results : List partitionsResult) (s2 : StreamsMap) (log : List (Nat × Nat)) (fid : Nat)
    (h : runDispatcher failed streams results = some (s2, log)) :
    List.Sublist (deliveredOffsetsTo fid log) (results.map (fun r => r.entry.offset)) := by
  induction results generalizing streams s2 log with
  | nil =>
    have h' : some (streams, ([] : List (Nat × Nat))) = some (s2, log) := h
    simp only [Option.some.injEq, Prod.mk.injEq] at h'
    obtain ⟨-, h2⟩ := h'
    subst h2
    simp [deliveredOffsetsTo]
  | cons r rest ih =>
    unfold runDispatcher at h
    cases hp : processFollowersResult failed streams r with
    | none =>
      rw [hp] at h
      exact Option.noConfusion h
    | some p1 =>
      obtain ⟨s1, log1⟩ := p1
      rw [hp] at h
      have h1 :
          (match runDispatcher failed s1 rest with
            | none => (none : Option (StreamsMap × List (Nat × Nat)))
            | some (s2, log2) => some (s2, log1 ++ log2)) = some (s2, log) := h
      cases hr : runDispatcher failed s1 rest with
      | none =>
        rw [hr] at h1
        exact Option.noConfusion h1
      | some p2 =>
        obtain ⟨s2', log2⟩ := p2
        rw [hr] at h1
        have h2 : some (s2', log1 ++ log2) = some (s2, log) := h1
        simp only [Option.some.injEq, Prod.mk.injEq] at h2
        obtain ⟨-, hlog⟩ := h2
        subst hlog
        have hl := processFollowersResult_log failed streams r s1 log1 hp
        have hone := deliveredOffsetsTo_single fid r.entry.offset log1 hl.1 hl.2
        have hrest := ih s1 s2' log2 hr
        unfold deliveredOffsetsTo at hone hrest ⊢
        rw [List.filter_append, List.map_append, List.map_cons]
        exact List.Sublist.append hone hrest

/-- C2: two parts.  Reducer: for each batch size N signalled on the queued
channel (with the mapped stream long enough), the reducer consumes exactly the
next N partitionsResult values and forwards exactly those N values as a
permutation sorted in ascending entry.offset order (the sort key of
partitionsResultsByOffset.Less), one batch — hence one drained signal — per
queued value.  Consequence: for a fixed subscription tree, if the dispatcher
processes results of a single stream whose offsets are strictly increasing in
After order, then the offsets delivered to any single follower id are strictly
increasing in After order. -/
theorem c2_reducer_and_monotone_delivery :
    (∀ (qs : List Nat) (mapped : List partitionsResult), qs.sum ≤ mapped.length →
      (reducePartitionRequests qs mapped).length = qs.length ∧
      List.Forall₂ (fun n out => out.length = n) qs (reducePartitionRequests qs mapped) ∧
      List.Forall₂
        (fun seg out => out.Perm seg ∧
          out.Pairwise (fun a b => a.entry.offset ≤ b.entry.offset))
        (batchSegments qs mapped) (reducePartitionRequests qs mapped)) ∧
    (∀ (failed : Nat → Bool) (streams : StreamsMap) (str : String)
        (results : List partitionsResult) (s2 : StreamsMap) (log : List (Nat × Nat))
        (fid : Nat),
      runDispatcher failed streams results = some (s2, log) →
      (∀ r ∈ results, r.entry.stream = str) →
      (results.map (fun r => r.entry.offset)).Pairwise (fun a b => offsetAfter b a = true) →
      (deliveredOffsetsTo fid log).Pairwise (fun a b => offsetAfter b a = true)) := by
  constructor
  · intro qs mapped h
    obtain ⟨h1, h2⟩ := reduce_forall₂ qs mapped h
    exact ⟨h1.length_eq.symm, h1, h2⟩
  · intro failed streams str results s2 log fid hrun hstr hmono
    have hsub := runDispatcher_sublist failed streams results s2 log fid hrun
    have hmono' : (results.map (fun r => r.entry.offset)).Pairwise (fun a b => a < b) := by
      refine hmono.imp ?_
      intro a b hab
      simpa [offsetAfter] using hab
    have hdel := List.Pairwise.sublist hsub hmono'
    refine hdel.imp ?_
    intro a b hab
    simpa [offsetAfter] using hab

/-- Witness for the C2 theorem: a two-element batch arriving out of order, and
two in-order results delivered to follower 1. -/
theorem c2_witness :
    ((reducePartitionRequests [2]
        [{ entry := { stream := "s", data := [], offset := 2 },
           partitions := [("k", { pid := 1, wherePassed := [("t", true)] })] },
         { entry := { stream := "s", data := [], offset := 1 },
           partitions := [("k", { pid := 1, wherePassed := [("t", true)] })] }]).length = 1 ∧
      List.Forall₂ (fun n out => out.length = n) [2]
        (reducePartitionRequests [2]
          [{ entry := { stream := "s", data := [], offset := 2 },
             partitions := [("k", { pid := 1, wherePassed := [("t", true)] })] },
           { entry := { stream := "s", data := [], offset := 1 },
             partitions := [("k", { pid := 1, wherePassed := [("t", true)] })] }]) ∧
      List.Forall₂
        (fun seg out => out.Perm seg ∧
          out.Pairwise (fun a b => a.entry.offset ≤ b.entry.offset))
        (batchSegments [2]
          [{ entry := { stream := "s", data := [], offset := 2 },
             partitions := [("k", { pid := 1, wherePassed := [("t", true)] })] },
           { entry := { stream := "s", data := [], offset := 1 },
             partitions := [("k", { pid := 1, wherePassed := [("t", true)] })] }])
        (reducePartitionRequests [2]
          [{ entry := { stream := "s", data := [], offset := 2 },
             partitions := [("k", { pid := 1, wherePassed := [("t", true)] })] },
           { entry := { stream := "s", data := [], offset := 1 },
             partitions := [("k", { pid := 1, wherePassed := [("t", true)] })] }])) ∧
    (deliveredOffsetsTo 1 [(1, 1), (1, 2)]).Pairwise (fun a b => offsetAfter b a = true) :=
  ⟨c2_reducer_and_monotone_delivery.1 [2]
      [{ entry := { stream := "s", data := [], offset := 2 },
         partitions := [("k", { pid := 1, wherePassed := [("t", true)] })] },
       { entry := { stream := "s", data := [], offset := 1 },
         partitions := [("k", { pid := 1, wherePassed := [("t", true)] })] }] (by decide),
   c2_reducer_and_monotone_delivery.2 (fun _ => false)
      [("s", [("k", { keys := ["k"], tables :=
        [("t", { whereString := "",
                 followers := [(1, [{ followerID := 1, offset := 0 }])] })] })])] "s"
      [{ entry := { stream := "s", data := [], offset := 1 },
         partitions := [("k", { pid := 1, wherePassed := [("t", true)] })] },
       { entry := { stream := "s", data := [], offset := 2 },
         partitions := [("k", { pid := 1, wherePassed := [("t", true)] })] }]
      [("s", [("k", { keys := ["k"], tables :=
        [("t", { whereString := "",
                 followers := [(1, [{ followerID := 1, offset := 2 }])] })] })])]
      [(1, 1), (1, 2)] 1 (by decide) (by decide) (by decide)⟩

end ZenoSpec
